import Mathlib

/-!
# Verification of the DynamoDB table resource provider

Shallow embedding of `lib/aws/provider/dynamodb/table.go` (package `dynamodb`):
the desired-state validator `Check`, the state reader `Get` with
`getHashRangeKeys`, the creator `Create`, the update sequencer `Update` with
`updateTable`, the deleter `Delete`, and the keyed-set diff over global
secondary indexes (`globalSecondaryIndexHash`, `newGlobalSecondaryIndexHashSet`).

Go `float64` capacity fields are embedded as `ℚ`; the Go conversion
`int64(x)` / `int(x)` on a float truncates toward zero and is embedded as
`ratTrunc`.  Go string length (`len`, bytes) is embedded as `String.length`
(the two agree on ASCII inputs, which is all the constants here compare
against).  Remote calls are represented by explicit response parameters and
by traces of emitted calls.
-/

namespace DynamoDBTable

/-! ## Constants from table.go (lines 40-58) -/

def minTableName : Nat := 3
def maxTableName : Nat := 255
def minTableAttributeName : Nat := 1
def maxTableAttributeName : Nat := 255
def minReadCapacity : ℚ := 1
def minWriteCapacity : ℚ := 1
def maxGlobalSecondaryIndexes : Nat := 5

def hashKeyAttribute : String := "HASH"
def rangeKeyAttribute : String := "RANGE"

/-! ## Data model (the `dynamodb.Table` RPC shape used by table.go) -/

/-- Structure `dynamodb.Attribute`: a table attribute definition (name + scalar type). -/
structure Attr where
  name : String
  type : String
  deriving DecidableEq, Repr

/-- Structure `dynamodb.GlobalSecondaryIndex`: a secondary-index specification. -/
structure GlobalSecondaryIndex where
  indexName : String
  hashKey : String
  rangeKey : Option String
  readCapacity : ℚ
  writeCapacity : ℚ
  nonKeyAttributes : List String
  projectionType : String
  deriving DecidableEq, Repr

/-- Structure `dynamodb.Table`: the desired-state description.  `name` is the resource
logical name (`obj.Name`, a pointer in Go), `tableName` the optional explicit
table name. -/
structure Table where
  name : Option String
  tableName : Option String
  hashKey : String
  rangeKey : Option String
  attributes : List Attr
  readCapacity : ℚ
  writeCapacity : ℚ
  globalSecondaryIndexes : Option (List GlobalSecondaryIndex)
  deriving DecidableEq, Repr

/-- Go `int64(x)` / `int(x)` applied to a float: truncation toward zero,
i.e. the T-division of the numerator by the (positive) denominator. -/
def ratTrunc (q : ℚ) : Int := q.num.tdiv q.den

/-! ## Check (table.go lines 71-153)

One constructor per `mapper.NewFieldErr` call site; the list is built in the
exact order the Go code appends failures. -/

inductive FieldError where
  | nameTooShort
  | nameTooLong
  | readCapacityTooLow
  | writeCapacityTooLow
  | attrNameTooShort
  | attrNameTooLong
  | attrTypeInvalid
  | tooManyGSIs
  | indexNameTooShort
  | indexNameTooLong
  | indexReadCapacityTooLow
  | indexWriteCapacityTooLow
  deriving DecidableEq, Repr

/-- The per-attribute body of the `for _, attribute := range obj.Attributes`
loop in Check (lines 99-118). -/
def checkAttr (a : Attr) : List FieldError :=
  (if a.name.length < minTableAttributeName then [.attrNameTooShort] else []) ++
  (if a.name.length > maxTableAttributeName then [.attrNameTooLong] else []) ++
  (if a.type = "S" ∨ a.type = "N" ∨ a.type = "B" then [] else [.attrTypeInvalid])

/-- The per-index body of the `for _, gsi := range gsis` loop in Check
(lines 127-149). -/
def checkGSI (g : GlobalSecondaryIndex) : List FieldError :=
  (if g.indexName.length < minTableName then [.indexNameTooShort] else []) ++
  (if g.indexName.length > maxTableName then [.indexNameTooLong] else []) ++
  (if g.readCapacity < minReadCapacity then [.indexReadCapacityTooLow] else []) ++
  (if g.writeCapacity < minWriteCapacity then [.indexWriteCapacityTooLow] else [])

/-- Embedding of `Check` (lines 71-153): pure validation collecting every violation.  It
issues no remote call (its embedding takes no remote capability) and returns
the collected failure list instead of raising. -/
def Check (obj : Table) : List FieldError :=
  (match obj.tableName with
   | none => []
   | some name =>
     (if name.length < minTableName then [.nameTooShort] else []) ++
     (if name.length > maxTableName then [.nameTooLong] else [])) ++
  (if obj.readCapacity < minReadCapacity then [.readCapacityTooLow] else []) ++
  (if obj.writeCapacity < minWriteCapacity then [.writeCapacityTooLow] else []) ++
  (obj.attributes.flatMap checkAttr) ++
  (match obj.globalSecondaryIndexes with
   | none => []
   | some gsis =>
     (if gsis.length > maxGlobalSecondaryIndexes then [.tooManyGSIs] else []) ++
     gsis.flatMap checkGSI)

/-! ### Spec-side validity rules (section 4.2 of the specification),
written independently of `Check` for the refinement theorems. -/

/-- Validity of the table description per the stated static rules. -/
def validTable (t : Table) : Bool :=
  (match t.tableName with
   | none => true
   | some n => decide (minTableName ≤ n.length ∧ n.length ≤ maxTableName)) &&
  decide (minReadCapacity ≤ t.readCapacity) &&
  decide (minWriteCapacity ≤ t.writeCapacity) &&
  t.attributes.all (fun a =>
    decide (minTableAttributeName ≤ a.name.length ∧
            a.name.length ≤ maxTableAttributeName) &&
    decide (a.type = "S" ∨ a.type = "N" ∨ a.type = "B")) &&
  (match t.globalSecondaryIndexes with
   | none => true
   | some gsis =>
     decide (gsis.length ≤ maxGlobalSecondaryIndexes) &&
     gsis.all (fun g =>
       decide (minTableName ≤ g.indexName.length ∧
               g.indexName.length ≤ maxTableName) &&
       decide (minReadCapacity ≤ g.readCapacity) &&
       decide (minWriteCapacity ≤ g.writeCapacity)))

/-- Indicator for counting: 1 when the condition holds. -/
def ind (p : Prop) [Decidable p] : Nat := if p then 1 else 0

/-- Number of independent rule violations in one attribute definition. -/
def attrViolations (a : Attr) : Nat :=
  ind (a.name.length < minTableAttributeName) +
  ind (a.name.length > maxTableAttributeName) +
  ind (¬ (a.type = "S" ∨ a.type = "N" ∨ a.type = "B"))

/-- Number of independent rule violations in one secondary-index spec. -/
def gsiViolations (g : GlobalSecondaryIndex) : Nat :=
  ind (g.indexName.length < minTableName) +
  ind (g.indexName.length > maxTableName) +
  ind (g.readCapacity < minReadCapacity) +
  ind (g.writeCapacity < minWriteCapacity)

/-- Total number of independent static-rule violations in a description. -/
def tableViolations (t : Table) : Nat :=
  (match t.tableName with
   | none => 0
   | some n => ind (n.length < minTableName) + ind (n.length > maxTableName)) +
  ind (t.readCapacity < minReadCapacity) +
  ind (t.writeCapacity < minWriteCapacity) +
  (t.attributes.map attrViolations).sum +
  (match t.globalSecondaryIndexes with
   | none => 0
   | some gsis =>
     ind (gsis.length > maxGlobalSecondaryIndexes) +
     (gsis.map gsiViolations).sum)

/-! ## Errors and the remote describe shape -/

/-- A Go `error` value as table.go distinguishes them: an `awserr.Error`
carrying a code, or any other error (e.g. an ARN-parse failure). -/
inductive GoError where
  | aws (code : String) (msg : String)
  | generic (msg : String)
  deriving DecidableEq, Repr

/-- Embedding of `awsctx.IsAWSError(err, codes...)`: true when the error is an AWS error
whose code is among `codes`. -/
def isAWSError (e : GoError) (codes : List String) : Bool :=
  match e with
  | .aws c _ => codes.contains c
  | .generic _ => false

/-- Structure `awsdynamodb.KeySchemaElement`. -/
structure KeySchemaElement where
  attributeName : String
  keyType : String
  deriving DecidableEq, Repr

/-- Structure `awsdynamodb.AttributeDefinition` as it appears in a describe response. -/
structure RemoteAttributeDefinition where
  attributeName : String
  attributeType : String
  deriving DecidableEq, Repr

/-- The fields of `awsdynamodb.GlobalSecondaryIndexDescription` that Get
reads. -/
structure RemoteGSIDescription where
  indexName : String
  keySchema : List KeySchemaElement
  readCapacityUnits : Int
  writeCapacityUnits : Int
  nonKeyAttributes : List String
  projectionType : String
  deriving DecidableEq, Repr

/-- The fields of `awsdynamodb.TableDescription` that Get reads. -/
structure RemoteTableDescription where
  tableName : Option String
  attributeDefinitions : List RemoteAttributeDefinition
  keySchema : List KeySchemaElement
  readCapacityUnits : Int
  writeCapacityUnits : Int
  globalSecondaryIndexes : List RemoteGSIDescription
  deriving DecidableEq, Repr

/-! ## getHashRangeKeys (table.go lines 304-319) -/

/-- The `for _, elem := range schema` loop of `getHashRangeKeys`, threading
the two accumulator variables; `none` is the `contract.Failf` branch taken on
a key type other than HASH or RANGE. -/
def hashRangeLoop :
    List KeySchemaElement → Option String → Option String →
    Option (Option String × Option String)
  | [], hk, rk => some (hk, rk)
  | e :: rest, hk, rk =>
    if e.keyType = hashKeyAttribute then hashRangeLoop rest (some e.attributeName) rk
    else if e.keyType = rangeKeyAttribute then hashRangeLoop rest hk (some e.attributeName)
    else none

/-- Embedding of `getHashRangeKeys`: recovers the hash key and optional range key from a
remote key schema; `none` covers both the `contract.Failf` on an unexpected
key type and the `contract.Assertf` that a hash key was discovered. -/
def getHashRangeKeys (schema : List KeySchemaElement) :
    Option (String × Option String) :=
  match hashRangeLoop schema none none with
  | none => none
  | some (none, _) => none
  | some (some hk, rk) => some (hk, rk)

/-! ## Get (table.go lines 247-302) -/

/-- Reverse map of one remote secondary-index description (the `for _, gsid`
loop body in Get); `none` when its key schema violates the key-role
invariant. -/
def remoteGSIToSpec (g : RemoteGSIDescription) : Option GlobalSecondaryIndex :=
  match getHashRangeKeys g.keySchema with
  | none => none
  | some (hk, rk) =>
    some { indexName := g.indexName
           hashKey := hk
           rangeKey := rk
           readCapacity := (g.readCapacityUnits : ℚ)
           writeCapacity := (g.writeCapacityUnits : ℚ)
           nonKeyAttributes := g.nonKeyAttributes
           projectionType := g.projectionType }

/-- Reverse map of the whole remote GSI list, failing if any index fails. -/
def mapGSIDescriptions :
    List RemoteGSIDescription → Option (List GlobalSecondaryIndex)
  | [] => some []
  | g :: rest =>
    match remoteGSIToSpec g, mapGSIDescriptions rest with
    | some x, some xs => some (x :: xs)
    | _, _ => none

/-- Outcome of Get: a populated state, the absent outcome (Go `nil, nil`), a
returned error, or a fatal contract violation (`contract.Failf`/`Assertf`). -/
inductive GetOutcome where
  | found (t : Table)
  | absent
  | failed (e : GoError)
  | fatal
  deriving DecidableEq, Repr

/-- Embedding of `Get` (lines 247-302), exactly as written: `parse` is the result
of `arn.ParseResourceName(id)` and `describe` the remote `DescribeTable`
response for a table name.  Note that the source applies the
`ResourceNotFoundException -> (nil, nil)` check to the PARSE error and
propagates any `DescribeTable` error unchanged. -/
def Get (parse : Except GoError String)
    (describe : String → Except GoError RemoteTableDescription) : GetOutcome :=
  match parse with
  | .error e =>
    if isAWSError e ["ResourceNotFoundException"] then .absent else .failed e
  | .ok name =>
    match describe name with
    | .error e => .failed e
    | .ok tab =>
      match getHashRangeKeys tab.keySchema with
      | none => .fatal
      | some (hk, rk) =>
        match mapGSIDescriptions tab.globalSecondaryIndexes with
        | none => .fatal
        | some gis =>
          .found { name := none
                   tableName := tab.tableName
                   hashKey := hk
                   rangeKey := rk
                   attributes := tab.attributeDefinitions.map (fun a =>
                     { name := a.attributeName, type := a.attributeType })
                   readCapacity := (tab.readCapacityUnits : ℚ)
                   writeCapacity := (tab.writeCapacityUnits : ℚ)
                   globalSecondaryIndexes :=
                     if tab.globalSecondaryIndexes.length > 0 then some gis
                     else none }

/-! ## The keyed-set diff over secondary indexes (table.go lines 570-591) -/

/-- Go `string(i)` for an integer `i`: the single code point `i` when `i` is
a valid non-surrogate Unicode code point, otherwise the replacement
character U+FFFD.  Strings are represented as lists of code points. -/
def goRune (n : Int) : Nat :=
  if (0 ≤ n ∧ n < 55296) ∨ (57343 < n ∧ n ≤ 1114111) then n.toNat else 65533

/-- Method `globalSecondaryIndexHash.HashKey` (line 576): the index name. -/
def gsiHashKey (g : GlobalSecondaryIndex) : String := g.indexName

/-- Method `globalSecondaryIndexHash.HashValue` (line 579):
`string(int(ReadCapacity)) + ":" + string(int(WriteCapacity))` as a list of
code points (58 is the colon). -/
def gsiHashValue (g : GlobalSecondaryIndex) : List Nat :=
  [goRune (ratTrunc g.readCapacity), 58, goRune (ratTrunc g.writeCapacity)]

/-- Modelled from the spec: `awsctx.HashSet.Add` (package awsctx, not under
src/) stores an item under its `HashKey`, replacing any previous item with
the same key — the spec (section 9) represents the index collections "as
maps keyed by name". -/
def hashSetAdd (s : List GlobalSecondaryIndex) (g : GlobalSecondaryIndex) :
    List GlobalSecondaryIndex :=
  s.filter (fun o => o.indexName ≠ g.indexName) ++ [g]

/-- Embedding of `newGlobalSecondaryIndexHashSet` (lines 582-591): nil pointer gives the
empty set, otherwise every index is added in order. -/
def newGlobalSecondaryIndexHashSet :
    Option (List GlobalSecondaryIndex) → List GlobalSecondaryIndex
  | none => []
  | some gsis => gsis.foldl hashSetAdd []

/-- Lookup in a keyed set by index name. -/
def lookupByName (s : List GlobalSecondaryIndex) (n : String) :
    Option GlobalSecondaryIndex :=
  s.find? (fun g => g.indexName = n)

/-- Modelled from the spec: `HashSet.Diff` additions (spec section 3), the
items of the new set whose key is absent from the old set. -/
def diffAdds (oldSet newSet : List GlobalSecondaryIndex) :
    List GlobalSecondaryIndex :=
  newSet.filter (fun g => (lookupByName oldSet g.indexName).isNone)

/-- Modelled from the spec: `HashSet.Diff` modifications (spec section 3),
the items of the new set whose key is present in the old set with a
different `HashValue` (the derived comparison key of spec section 9). -/
def diffUpdates (oldSet newSet : List GlobalSecondaryIndex) :
    List GlobalSecondaryIndex :=
  newSet.filter (fun g =>
    match lookupByName oldSet g.indexName with
    | none => false
    | some o => gsiHashValue o ≠ gsiHashValue g)

/-- Modelled from the spec: `HashSet.Diff` removals (spec section 3), the
items of the old set whose key is absent from the new set. -/
def diffDeletes (oldSet newSet : List GlobalSecondaryIndex) :
    List GlobalSecondaryIndex :=
  oldSet.filter (fun g => (lookupByName newSet g.indexName).isNone)

/-! ## Request building shared by Create and Update -/

/-- The key schema built for a hash key and optional range key (Create lines
175-186, and per secondary index at lines 199-210 and 375-386). -/
def tableKeySchema (hk : String) (rk : Option String) : List KeySchemaElement :=
  [{ attributeName := hk, keyType := hashKeyAttribute }] ++
  (match rk with
   | none => []
   | some r => [{ attributeName := r, keyType := rangeKeyAttribute }])

/-- The `AttributeDefinitions` list built from the desired attributes
(Create lines 166-172, Update lines 387-393). -/
def attrDefs (attrs : List Attr) : List RemoteAttributeDefinition :=
  attrs.map (fun a => { attributeName := a.name, attributeType := a.type })

/-- The per-index creation clause (`awsdynamodb.GlobalSecondaryIndex` in
Create, `CreateGlobalSecondaryIndexAction` in Update): key schema, truncated
capacities, and projection. -/
structure CreateGSIAction where
  indexName : String
  keySchema : List KeySchemaElement
  readCapacityUnits : Int
  writeCapacityUnits : Int
  nonKeyAttributes : List String
  projectionType : String
  deriving DecidableEq, Repr

/-- Builds the creation clause for one secondary index (Create lines
198-223, Update lines 397-412). -/
def gsiCreateAction (g : GlobalSecondaryIndex) : CreateGSIAction :=
  { indexName := g.indexName
    keySchema := tableKeySchema g.hashKey g.rangeKey
    readCapacityUnits := ratTrunc g.readCapacity
    writeCapacityUnits := ratTrunc g.writeCapacity
    nonKeyAttributes := g.nonKeyAttributes
    projectionType := g.projectionType }

/-! ## Update (table.go lines 329-464) -/

/-- One remote interaction of the update sequencer: the four
`UpdateTable` request variants, and the convergence wait for the table to
become ACTIVE (`waitForTableState(name, true)`). -/
inductive UpdateCall where
  | updateThroughput (table : String) (readCapacityUnits writeCapacityUnits : Int)
  | createIndex (table : String)
      (attributeDefinitions : List RemoteAttributeDefinition)
      (action : CreateGSIAction)
  | updateIndexCapacity (table : String) (index : String)
      (readCapacityUnits writeCapacityUnits : Int)
  | deleteIndex (table : String) (index : String)
  | waitActive (table : String)
  deriving DecidableEq, Repr

/-- Whether a call mutates the remote resource (everything except the
convergence wait, which only describes). -/
def isMutating : UpdateCall → Bool
  | .waitActive _ => false
  | _ => true

/-- Embedding of `updateTable` (lines 504-529) on the path where the UpdateTable request
is accepted on the first attempt: the request, then
`waitForTableState(name, true)` before returning. -/
def updateTableCalls (name : String) (c : UpdateCall) : List UpdateCall :=
  [c, .waitActive name]

/-- The sequence of remote calls `Update` (lines 329-464) issues after a
successful identifier parse, on the path where every accepted request
succeeds on its first attempt.  `readCapChanged`, `writeCapChanged` and
`gsiChanged` are the results of `diff.Changed` on the respective fields
(`resource.ObjectDiff` lives in pkg/resource, outside the embedded
sources). -/
def updateTrace (name : String) (old new : Table)
    (readCapChanged writeCapChanged gsiChanged : Bool) : List UpdateCall :=
  (if readCapChanged || writeCapChanged then
     updateTableCalls name
       (.updateThroughput name (ratTrunc new.readCapacity) (ratTrunc new.writeCapacity))
   else []) ++
  (if gsiChanged then
     let newSet := newGlobalSecondaryIndexHashSet new.globalSecondaryIndexes
     let oldSet := newGlobalSecondaryIndexHashSet old.globalSecondaryIndexes
     ((diffAdds oldSet newSet).flatMap (fun g =>
        updateTableCalls name
          (.createIndex name (attrDefs new.attributes) (gsiCreateAction g)))) ++
     ((diffUpdates oldSet newSet).flatMap (fun g =>
        updateTableCalls name
          (.updateIndexCapacity name g.indexName
            (ratTrunc g.readCapacity) (ratTrunc g.writeCapacity)))) ++
     ((diffDeletes oldSet newSet).flatMap (fun g =>
        updateTableCalls name (.deleteIndex name g.indexName))) ++
     [.waitActive name]
   else [])

/-- Embedding of the `Update` entry: a failed identifier parse returns the error before any
remote call; otherwise the trace of issued calls. -/
def Update (parse : Except GoError String) (old new : Table)
    (readCapChanged writeCapChanged gsiChanged : Bool) :
    Except GoError (List UpdateCall) :=
  match parse with
  | .error e => .error e
  | .ok name => .ok (updateTrace name old new readCapChanged writeCapChanged gsiChanged)

/-! ## Create (table.go lines 157-244) -/

/-- Structure `awsdynamodb.CreateTableInput` as built by Create (lines 187-225). -/
structure CreateTableInput where
  tableName : String
  attributeDefinitions : List RemoteAttributeDefinition
  keySchema : List KeySchemaElement
  readCapacityUnits : Int
  writeCapacityUnits : Int
  globalSecondaryIndexes : Option (List CreateGSIAction)
  deriving DecidableEq, Repr

/-- The creation request Create builds from a desired state and resolved
name. -/
def buildCreateTableInput (name : String) (obj : Table) : CreateTableInput :=
  { tableName := name
    attributeDefinitions := attrDefs obj.attributes
    keySchema := tableKeySchema obj.hashKey obj.rangeKey
    readCapacityUnits := ratTrunc obj.readCapacity
    writeCapacityUnits := ratTrunc obj.writeCapacity
    globalSecondaryIndexes :=
      obj.globalSecondaryIndexes.map (fun l => l.map gsiCreateAction) }

/-- A remote interaction of Create: the single CreateTable request, or the
convergence wait for the active state. -/
inductive CreateEvent where
  | createTable (input : CreateTableInput)
  | waitActive (name : String)
  deriving DecidableEq, Repr

/-- Whether a Create event is the CreateTable request itself. -/
def isCreateCall : CreateEvent → Bool
  | .createTable _ => true
  | .waitActive _ => false

/-- The identifier/error pair Create returns (Go `(resource.ID, error)`). -/
structure CreateResult where
  id : String
  error : Option GoError
  deriving DecidableEq, Repr

/-- The table-name resolution of Create (lines 158-164): the explicit name
when given, else the generated unique name (`genName` stands for
`resource.NewUniqueHex(*obj.Name+"-", maxTableName, sha1.Size)`,
pkg/resource, outside the embedded sources). -/
def resolvedName (obj : Table) (genName : String) : String :=
  match obj.tableName with
  | some n => n
  | none => genName

/-- Embedding of `Create` (lines 157-244): `createResp` is the remote CreateTable
response (the table ARN on success) and `waitErr` the outcome of the
convergence wait.  The creation request is issued exactly once, inside no
retry loop; any creation error is returned with the empty identifier. -/
def Create (obj : Table) (genName : String)
    (createResp : CreateTableInput → Except GoError String)
    (waitErr : Option GoError) : List CreateEvent × CreateResult :=
  match createResp (buildCreateTableInput (resolvedName obj genName) obj) with
  | .error e =>
    ([.createTable (buildCreateTableInput (resolvedName obj genName) obj)],
     { id := "", error := some e })
  | .ok arnValue =>
    match waitErr with
    | some e =>
      ([.createTable (buildCreateTableInput (resolvedName obj genName) obj),
        .waitActive (resolvedName obj genName)],
       { id := "", error := some e })
    | none =>
      ([.createTable (buildCreateTableInput (resolvedName obj genName) obj),
        .waitActive (resolvedName obj genName)],
       { id := arnValue, error := none })

/-! ## Retry profiles and Delete (table.go lines 467-502) -/

/-- The two retry budgets of spec section 4.1: the short/default profile
(`awsctx.RetryUntil`) and the long profile (`awsctx.RetryUntilLong`). -/
inductive RetryProfile where
  | short
  | long
  deriving DecidableEq, Repr

/-- Delete wraps its DeleteTable loop in `awsctx.RetryUntilLong`
(line 475). -/
def deleteRetryProfile : RetryProfile := .long

/-- updateTable wraps its UpdateTable loop in `awsctx.RetryUntil`
(line 505), the short/default profile. -/
def updateTableRetryProfile : RetryProfile := .short

/-- waitForTableState polls with `awsctx.RetryUntilLong` (line 532). -/
def waitForTableStateRetryProfile : RetryProfile := .long

/-- One DeleteTable response, as Delete classifies it: accepted, the table
already absent, a mutation already in progress, or any other error. -/
inductive DeleteResponse where
  | accepted
  | notFound
  | inUse
  | otherErr (e : GoError)
  deriving DecidableEq, Repr

/-- The retry closure of Delete (lines 477-490): `(done, error)` for one
DeleteTable response. -/
def deleteProbe : DeleteResponse → Bool × Option GoError
  | .accepted => (true, none)
  | .notFound => (true, none)
  | .inUse => (false, none)
  | .otherErr e => (false, some e)

/-- Modelled from the spec: `awsctx.RetryUntil`/`RetryUntilLong` (package
awsctx, not under src/) invoke the probe until it returns `done = true`,
returns a non-nil error (propagated immediately), or the attempt budget is
exhausted, which yields `(false, none)` (spec section 4.1).  The second
argument is the index of the next attempt. -/
def retryRun (probe : Nat → Bool × Option GoError) :
    Nat → Nat → Bool × Option GoError
  | 0, _ => (false, none)
  | budget + 1, i =>
    match probe i with
    | (_, some e) => (false, some e)
    | (true, none) => (true, none)
    | (false, none) => retryRun probe budget (i + 1)

/-- Outcome of Delete up to (and not including) the final convergence wait
for absence. -/
inductive DeleteOutcome where
  | waitingForAbsence (name : String)
  | couldNotDelete (name : String)
  | failed (e : GoError)
  deriving DecidableEq, Repr

/-- Embedding of `Delete` (lines 467-502) up to the final `waitForTableState(name,
false)`: `responses` gives the remote DeleteTable response for each retry
attempt and `budget` the attempt budget of the retry profile. -/
def Delete (parse : Except GoError String) (budget : Nat)
    (responses : Nat → DeleteResponse) : DeleteOutcome :=
  match parse with
  | .error e => .failed e
  | .ok name =>
    match retryRun (fun i => deleteProbe (responses i)) budget 0 with
    | (_, some e) => .failed e
    | (true, none) => .waitingForAbsence name
    | (false, none) => .couldNotDelete name

/-- The dedicated Delete failure message (line 496); the quotes around the
name in the Go format string are elided. -/
def couldNotDeleteMessage (name : String) : String :=
  "DynamoDB table " ++ name ++ " could not be deleted"

/-- The convergence-timeout message of `waitForTableState` (line 565);
`reason` is "active" or "deleted". -/
def didNotBecomeMessage (name reason : String) : String :=
  "DynamoDB table " ++ name ++ " did not become " ++ reason

/-! ## Shared fixtures for witnesses -/

/-- A small valid desired state used by witness instantiations. -/
def sampleTable : Table :=
  { name := some "orders"
    tableName := some "orders"
    hashKey := "id"
    rangeKey := none
    attributes := [{ name := "id", type := "S" }]
    readCapacity := 5
    writeCapacity := 5
    globalSecondaryIndexes := none }

/-- The index names of a keyed set. -/
def namesOf (s : List GlobalSecondaryIndex) : List String :=
  s.map (fun g => g.indexName)

/-- Fixture: an index with fractional read capacity 11/2. -/
def fracOldIdx : GlobalSecondaryIndex :=
  { indexName := "idx"
    hashKey := "h"
    rangeKey := none
    readCapacity := ⟨11, 2, by norm_num, by norm_num⟩
    writeCapacity := 5
    nonKeyAttributes := []
    projectionType := "ALL" }

/-- Fixture: the same index with fractional read capacity 27/5. -/
def fracNewIdx : GlobalSecondaryIndex :=
  { indexName := "idx"
    hashKey := "h"
    rangeKey := none
    readCapacity := ⟨27, 5, by norm_num, by norm_num⟩
    writeCapacity := 5
    nonKeyAttributes := []
    projectionType := "ALL" }

/-- The index name carried by an update-index-capacity call, if any. -/
def updatedIndexName? : UpdateCall → Option String
  | .updateIndexCapacity _ i _ _ => some i
  | _ => none

/-- The names of all indexes for which a trace issues an
update-index-capacity call. -/
def updatedIndexNames (t : List UpdateCall) : List String :=
  t.filterMap updatedIndexName?

/-- The mutating calls of a trace, in order. -/
def mutatingCalls (t : List UpdateCall) : List UpdateCall :=
  t.filter isMutating

/-- Predicate `waitFollows name t`: holds when every mutating call in `t` is
immediately followed by a wait-for-active on `name` (also at the end of the
trace: a trace may not end on a mutating call). -/
def waitFollows (name : String) : List UpdateCall → Bool
  | [] => true
  | [c] => !isMutating c
  | c :: c2 :: rest =>
    (!isMutating c || (c2 == UpdateCall.waitActive name)) &&
      waitFollows name (c2 :: rest)

/-! ## Claim theorems -/

/-- C1: the claim says a "not found" response from the remote describe call
maps to the absent outcome (nil state, nil error) while a parse failure
yields an error.  The code does the opposite: the
`ResourceNotFoundException -> absent` check is applied to the ARN-parse
error (table.go lines 248-254), so a describe response reporting the
resource as not found is propagated as an error (first conjunct), and a
parse failure carrying that AWS code is reported as absence (second
conjunct). -/
theorem get_describeNotFound_returns_error :
    Get (.ok "orders")
      (fun _ => .error (.aws "ResourceNotFoundException" "Requested resource not found"))
      = .failed (.aws "ResourceNotFoundException" "Requested resource not found") ∧
    Get (.error (.aws "ResourceNotFoundException" "bad id"))
      (fun _ => .error (.generic "unused"))
      = .absent := by
  exact ⟨rfl, rfl⟩

/-- C9: an Update whose diff reports no change to read capacity, write
capacity, or the secondary-index collection, and whose identifier parses
successfully, issues no remote mutating call and no convergence wait, and
returns success. -/
theorem update_no_diff_no_calls (name : String) (old new : Table) :
    Update (.ok name) old new false false false = .ok [] := rfl

/-- C6: Create issues the remote creation call exactly once in every
outcome (it sits inside no retry loop), and when that call returns an error
Create propagates it and returns the empty identifier. -/
theorem create_calls_once_and_propagates_error (obj : Table) (genName : String)
    (createResp : CreateTableInput → Except GoError String) (waitErr : Option GoError) :
    ((Create obj genName createResp waitErr).1.filter isCreateCall).length = 1 ∧
    (∀ e input, createResp input = .error e →
      input = buildCreateTableInput (resolvedName obj genName) obj →
      (Create obj genName createResp waitErr).2 = { id := "", error := some e }) := by
  constructor
  · unfold Create
    cases h : createResp (buildCreateTableInput (resolvedName obj genName) obj) with
    | error e => simp [List.filter, isCreateCall]
    | ok a => cases waitErr <;> simp [List.filter, isCreateCall]
  · intro e input he hin
    subst hin
    unfold Create
    rw [he]

/-- Witness for C6 at a concrete failing creation call. -/
theorem create_calls_once_and_propagates_error_witness :
    (Create sampleTable "gen" (fun _ => .error (.generic "boom")) none).2 =
      { id := "", error := some (.generic "boom") } :=
  (create_calls_once_and_propagates_error sampleTable "gen"
      (fun _ => .error (.generic "boom")) none).2
    (.generic "boom") _ rfl rfl

/-- C8: an Update whose diff reports a capacity change and no
secondary-index change issues exactly one throughput-update call (followed
by its convergence wait) and no index create/update/delete call. -/
theorem update_capacity_only_single_throughput_call
    (name : String) (old new : Table) (rc wc : Bool) (h : (rc || wc) = true) :
    Update (.ok name) old new rc wc false =
      .ok [.updateThroughput name (ratTrunc new.readCapacity) (ratTrunc new.writeCapacity),
           .waitActive name] := by
  simp [Update, updateTrace, h, updateTableCalls]

/-- Witness for C8: capacity 5 to 10 on the sample table. -/
theorem update_capacity_only_single_throughput_call_witness :
    Update (.ok "orders") sampleTable
        { sampleTable with readCapacity := 10, writeCapacity := 10 } true true false =
      .ok [.updateThroughput "orders" 10 10, .waitActive "orders"] :=
  update_capacity_only_single_throughput_call "orders" sampleTable
    { sampleTable with readCapacity := 10, writeCapacity := 10 } true true rfl

/-- The key-schema loop succeeds exactly when every entry has role HASH or
RANGE, independently of the accumulators. -/
theorem hashRangeLoop_isSome_iff (schema : List KeySchemaElement)
    (hk rk : Option String) :
    (hashRangeLoop schema hk rk).isSome ↔
      ∀ e ∈ schema, e.keyType = hashKeyAttribute ∨ e.keyType = rangeKeyAttribute := by
  induction schema generalizing hk rk with
  | nil => simp [hashRangeLoop]
  | cons e rest ih =>
    by_cases h1 : e.keyType = hashKeyAttribute
    · rw [hashRangeLoop, if_pos h1]
      simp [ih, h1]
    · by_cases h2 : e.keyType = rangeKeyAttribute
      · rw [hashRangeLoop, if_neg h1, if_pos h2]
        simp [ih, h2]
      · rw [hashRangeLoop, if_neg h1, if_neg h2]
        simp [h1, h2]

/-- On success, the recovered hash accumulator is populated exactly when the
initial one was or some entry has role HASH. -/
theorem hashRangeLoop_hash_isSome (schema : List KeySchemaElement) :
    ∀ (hk rk : Option String) (p : Option String × Option String),
    hashRangeLoop schema hk rk = some p →
    (p.1.isSome ↔ (hk.isSome ∨ ∃ e ∈ schema, e.keyType = hashKeyAttribute)) := by
  induction schema with
  | nil =>
    intro hk rk p h
    simp [hashRangeLoop] at h
    simp [← h]
  | cons e rest ih =>
    intro hk rk p h
    by_cases h1 : e.keyType = hashKeyAttribute
    · rw [hashRangeLoop, if_pos h1] at h
      have := ih _ _ _ h
      simp [h1, this]
    · by_cases h2 : e.keyType = rangeKeyAttribute
      · rw [hashRangeLoop, if_neg h1, if_pos h2] at h
        have := ih _ _ _ h
        simp only [List.mem_cons] at this ⊢
        rw [this]
        constructor
        · rintro (hh | ⟨x, hx, hty⟩)
          · exact Or.inl hh
          · exact Or.inr ⟨x, Or.inr hx, hty⟩
        · rintro (hh | ⟨x, (rfl | hx), hty⟩)
          · exact Or.inl hh
          · exact absurd hty h1
          · exact Or.inr ⟨x, hx, hty⟩
      · rw [hashRangeLoop, if_neg h1, if_neg h2] at h
        exact absurd h (by simp)

/-- C7: `getHashRangeKeys` recovers exactly one hash key and at most one
range key (its result type): it succeeds precisely when every key-schema
entry has role HASH or RANGE and some entry has role HASH; an entry with any
other role, or the absence of a HASH entry, lands in the fatal
`contract.Failf`/`Assertf` branch (`none`). -/
theorem getHashRangeKeys_characterization (schema : List KeySchemaElement) :
    (∃ hk rk, getHashRangeKeys schema = some (hk, rk)) ↔
      ((∀ e ∈ schema, e.keyType = hashKeyAttribute ∨ e.keyType = rangeKeyAttribute) ∧
       ∃ e ∈ schema, e.keyType = hashKeyAttribute) := by
  unfold getHashRangeKeys
  cases h : hashRangeLoop schema none none with
  | none =>
    have hall : ¬ ∀ e ∈ schema,
        e.keyType = hashKeyAttribute ∨ e.keyType = rangeKeyAttribute := by
      rw [← hashRangeLoop_isSome_iff schema none none, h]
      simp
    constructor
    · rintro ⟨hk, rk, hcontra⟩
      exact Option.noConfusion hcontra
    · rintro ⟨hforall, _⟩
      exact absurd hforall hall
  | some p =>
    obtain ⟨oh, rk0⟩ := p
    have hforall : ∀ e ∈ schema,
        e.keyType = hashKeyAttribute ∨ e.keyType = rangeKeyAttribute := by
      rw [← hashRangeLoop_isSome_iff schema none none, h]
      rfl
    have hhash := hashRangeLoop_hash_isSome schema none none _ h
    cases oh with
    | none =>
      have hnohash : ¬ ∃ e ∈ schema, e.keyType = hashKeyAttribute := by
        intro hex
        have hs : (none : Option String).isSome = true := hhash.mpr (Or.inr hex)
        simp at hs
      constructor
      · rintro ⟨hk, rk, hcontra⟩
        exact Option.noConfusion hcontra
      · rintro ⟨_, hex⟩
        exact absurd hex hnohash
    | some hk0 =>
      constructor
      · intro _
        refine ⟨hforall, ?_⟩
        rcases hhash.mp (by simp) with hcontra | hex
        · simp at hcontra
        · exact hex
      · intro _
        exact ⟨hk0, rk0, rfl⟩

/-- The bounded retry loop exhausts to `(false, none)` when every attempt in
the window probes `(false, none)`. -/
theorem retryRun_exhausts (probe : Nat → Bool × Option GoError) :
    ∀ (budget start : Nat),
    (∀ j, start ≤ j → j < start + budget → probe j = (false, none)) →
    retryRun probe budget start = (false, none) := by
  intro budget
  induction budget with
  | zero => intro start _; rfl
  | succ n ih =>
    intro start h
    have hp := h start (Nat.le_refl _) (by omega)
    simp only [retryRun, hp]
    exact ih (start + 1) (fun j hj1 hj2 => h j (by omega) (by omega))

/-- C5 counterexample: the claim places the delete call inside the
short-retry profile, but Delete wraps it in `awsctx.RetryUntilLong`
(table.go line 475), the long profile. -/
theorem delete_not_short_profile : deleteRetryProfile ≠ RetryProfile.short := by
  decide

/-- C5 (amended): the delete call runs inside the LONG retry profile; a
remote already-absent response is immediate success, a
mutation-in-progress response is retried rather than failed, any other
remote error is propagated immediately, and exhausting the retries yields
the dedicated could-not-delete error naming the resource, whose message is
distinct from the convergence-timeout message for every resource name and
terminal condition. -/
theorem delete_retry_behavior :
    deleteRetryProfile = RetryProfile.long ∧
    (∀ (name : String) (budget : Nat) (responses : Nat → DeleteResponse),
       responses 0 = DeleteResponse.notFound →
       Delete (.ok name) (budget + 1) responses = .waitingForAbsence name) ∧
    (∀ (name : String) (budget : Nat) (responses : Nat → DeleteResponse),
       responses 0 = DeleteResponse.inUse →
       responses 1 = DeleteResponse.accepted →
       Delete (.ok name) (budget + 2) responses = .waitingForAbsence name) ∧
    (∀ (name : String) (budget : Nat) (responses : Nat → DeleteResponse) (e : GoError),
       responses 0 = DeleteResponse.otherErr e →
       Delete (.ok name) (budget + 1) responses = .failed e) ∧
    (∀ (name : String) (budget : Nat) (responses : Nat → DeleteResponse),
       (∀ i, i < budget → responses i = DeleteResponse.inUse) →
       Delete (.ok name) budget responses = .couldNotDelete name) ∧
    (∀ name reason, couldNotDeleteMessage name ≠ didNotBecomeMessage name reason) := by
  refine ⟨rfl, ?_, ?_, ?_, ?_, ?_⟩
  · intro name budget responses h
    simp [Delete, retryRun, h, deleteProbe]
  · intro name budget responses h0 h1
    simp [Delete, retryRun, h0, h1, deleteProbe]
  · intro name budget responses e h
    simp [Delete, retryRun, h, deleteProbe]
  · intro name budget responses h
    have hex := retryRun_exhausts (fun i => deleteProbe (responses i)) budget 0
      (fun j hj1 hj2 => by
        show deleteProbe (responses j) = (false, none)
        rw [h j (by omega)]
        rfl)
    simp [Delete, hex]
  · intro name reason hcontra
    have hd := congrArg String.data hcontra
    simp only [couldNotDeleteMessage, didNotBecomeMessage,
      String.data_append, List.append_assoc] at hd
    have h2 := List.append_cancel_left (List.append_cancel_left hd)
    have h3 := congrArg (fun l => l[1]?) h2
    simp only at h3
    rw [List.getElem?_append, if_pos (by decide)] at h3
    exact absurd h3 (by decide)

/-- Witness for C5: a budget-3 delete whose first response is
already-absent succeeds immediately. -/
theorem delete_retry_behavior_witness :
    Delete (.ok "orders") 3 (fun _ => DeleteResponse.notFound) =
      .waitingForAbsence "orders" :=
  delete_retry_behavior.2.1 "orders" 2 (fun _ => DeleteResponse.notFound) rfl

/-! ### Validator lemmas (C4) -/

theorem length_if_singleton {p : Prop} [Decidable p] (x : FieldError) :
    (if p then [x] else []).length = ind p := by
  by_cases h : p <;> simp [h, ind]

theorem length_if_empty {p : Prop} [Decidable p] (x : FieldError) :
    (if p then ([] : List FieldError) else [x]).length = ind (¬ p) := by
  by_cases h : p <;> simp [h, ind]

theorem ind_eq_zero {p : Prop} [Decidable p] : ind p = 0 ↔ ¬ p := by
  by_cases h : p <;> simp [h, ind]

theorem checkAttr_length (a : Attr) : (checkAttr a).length = attrViolations a := by
  unfold checkAttr attrViolations
  rw [List.length_append, List.length_append,
    length_if_singleton, length_if_singleton, length_if_empty]

theorem checkGSI_length (g : GlobalSecondaryIndex) :
    (checkGSI g).length = gsiViolations g := by
  unfold checkGSI gsiViolations
  rw [List.length_append, List.length_append, List.length_append,
    length_if_singleton, length_if_singleton, length_if_singleton,
    length_if_singleton]

theorem flatMap_checkAttr_length (l : List Attr) :
    (l.flatMap checkAttr).length = (l.map attrViolations).sum := by
  induction l with
  | nil => rfl
  | cons a t ih => simp [checkAttr_length, ih]

theorem flatMap_checkGSI_length (l : List GlobalSecondaryIndex) :
    (l.flatMap checkGSI).length = (l.map gsiViolations).sum := by
  induction l with
  | nil => rfl
  | cons g t ih => simp [checkGSI_length, ih]

/-- The failure list of Check has exactly one entry per independent
violated rule. -/
theorem check_length (obj : Table) : (Check obj).length = tableViolations obj := by
  obtain ⟨nm, tn, hk, rk, attrs, rc, wc, gsis⟩ := obj
  unfold Check tableViolations
  cases tn <;> cases gsis <;>
    simp [List.length_append, length_if_singleton, length_if_empty,
      show List.length ∘ checkAttr = attrViolations from funext checkAttr_length,
      show List.length ∘ checkGSI = gsiViolations from funext checkGSI_length]
  all_goals omega

theorem attrViolations_zero (a : Attr) :
    attrViolations a = 0 ↔
      ((minTableAttributeName ≤ a.name.length ∧
        a.name.length ≤ maxTableAttributeName) ∧
       (a.type = "S" ∨ a.type = "N" ∨ a.type = "B")) := by
  simp [attrViolations, Nat.add_eq_zero, ind_eq_zero, Nat.not_lt]
  tauto

theorem gsiViolations_zero (g : GlobalSecondaryIndex) :
    gsiViolations g = 0 ↔
      ((minTableName ≤ g.indexName.length ∧ g.indexName.length ≤ maxTableName) ∧
       minReadCapacity ≤ g.readCapacity ∧ minWriteCapacity ≤ g.writeCapacity) := by
  simp [gsiViolations, Nat.add_eq_zero, ind_eq_zero, Nat.not_lt, not_lt]
  tauto

/-- Zero violations is exactly validity per the spec rules. -/
theorem tableViolations_zero_iff (obj : Table) :
    tableViolations obj = 0 ↔ validTable obj = true := by
  obtain ⟨nm, tn, hk, rk, attrs, rc, wc, gsis⟩ := obj
  unfold tableViolations validTable
  cases tn <;> cases gsis <;>
    simp [Nat.add_eq_zero, ind_eq_zero, Nat.not_lt, not_lt,
      List.sum_eq_zero_iff, List.all_eq_true, attrViolations_zero,
      gsiViolations_zero, and_assoc]

/-- C4: Check (a pure function, embedded with no remote capability and no
raised error) collects one field error per independent violation of the
static rules instead of stopping at the first, and returns the empty list
exactly when the description satisfies all the rules. -/
theorem check_complete (obj : Table) :
    (Check obj).length = tableViolations obj ∧
    (Check obj = [] ↔ validTable obj = true) := by
  refine ⟨check_length obj, ?_⟩
  rw [← tableViolations_zero_iff, ← check_length]
  exact List.length_eq_zero.symm

/-! ### Keyed-set and diff lemmas (C3, C10) -/

/-- A name is in a set exactly when lookup finds an item for it. -/
theorem mem_namesOf_iff (s : List GlobalSecondaryIndex) (n : String) :
    n ∈ namesOf s ↔ ∃ g, lookupByName s n = some g := by
  rw [namesOf, List.mem_map]
  constructor
  · rintro ⟨g, hg, rfl⟩
    have hs : (lookupByName s g.indexName).isSome := by
      rw [lookupByName, List.find?_isSome]
      exact ⟨g, hg, by simp⟩
    exact Option.isSome_iff_exists.mp hs
  · rintro ⟨g, hg⟩
    refine ⟨g, List.mem_of_find?_eq_some hg, ?_⟩
    simpa using List.find?_some hg

/-- Adding to the keyed set keeps the names duplicate-free. -/
theorem nodup_namesOf_hashSetAdd (s : List GlobalSecondaryIndex)
    (g : GlobalSecondaryIndex) (h : (namesOf s).Nodup) :
    (namesOf (hashSetAdd s g)).Nodup := by
  rw [hashSetAdd, namesOf, List.map_append, List.nodup_append]
  refine ⟨?_, by simp, ?_⟩
  · exact ((List.filter_sublist s).map _).nodup h
  · intro x hx
    obtain ⟨o, ho, rfl⟩ := List.mem_map.mp hx
    have := List.of_mem_filter ho
    simpa using this

/-- The keyed set built by `newGlobalSecondaryIndexHashSet` has
duplicate-free names. -/
theorem hashSet_names_nodup (opt : Option (List GlobalSecondaryIndex)) :
    (namesOf (newGlobalSecondaryIndexHashSet opt)).Nodup := by
  cases opt with
  | none => simp [newGlobalSecondaryIndexHashSet, namesOf]
  | some l =>
    suffices h : ∀ acc, (namesOf acc).Nodup →
        (namesOf (l.foldl hashSetAdd acc)).Nodup by
      exact h [] (by simp [namesOf])
    induction l with
    | nil => intro acc h; exact h
    | cons g t ih =>
      intro acc h
      exact ih _ (nodup_namesOf_hashSetAdd _ _ h)

/-- In a set with duplicate-free names, lookup of a member name returns that
member. -/
theorem lookup_eq_of_mem (s : List GlobalSecondaryIndex)
    (hnd : (namesOf s).Nodup) (g : GlobalSecondaryIndex) (hg : g ∈ s) :
    lookupByName s g.indexName = some g := by
  induction s with
  | nil => cases hg
  | cons a t ih =>
    rw [namesOf, List.map_cons, List.nodup_cons] at hnd
    rcases List.mem_cons.mp hg with rfl | hgt
    · simp [lookupByName]
    · have hne : ¬ a.indexName = g.indexName := by
        intro heq
        exact hnd.1 (heq ▸ List.mem_map_of_mem _ hgt)
      rw [lookupByName, show ((a :: t).find? (fun x => x.indexName = g.indexName) =
        t.find? (fun x => x.indexName = g.indexName)) by simp [List.find?, hne]]
      exact ih hnd.2 hgt

/-- Additions are exactly the names present only in the new set. -/
theorem mem_namesOf_diffAdds (O N : List GlobalSecondaryIndex) (n : String) :
    n ∈ namesOf (diffAdds O N) ↔ n ∈ namesOf N ∧ n ∉ namesOf O := by
  constructor
  · intro hmem
    obtain ⟨g, hg, rfl⟩ := List.mem_map.mp hmem
    obtain ⟨hgN, hp⟩ := List.mem_filter.mp hg
    refine ⟨List.mem_map_of_mem _ hgN, ?_⟩
    rw [mem_namesOf_iff]
    rintro ⟨go, hgo⟩
    rw [hgo] at hp
    simp at hp
  · rintro ⟨hN, hO⟩
    obtain ⟨g, hgN, rfl⟩ := List.mem_map.mp hN
    refine List.mem_map_of_mem _ (List.mem_filter.mpr ⟨hgN, ?_⟩)
    rw [Option.isNone_iff_eq_none]
    cases hcase : lookupByName O g.indexName with
    | none => rfl
    | some go => exact absurd ((mem_namesOf_iff O _).mpr ⟨go, hcase⟩) hO

/-- Removals are exactly the names present only in the old set. -/
theorem mem_namesOf_diffDeletes (O N : List GlobalSecondaryIndex) (n : String) :
    n ∈ namesOf (diffDeletes O N) ↔ n ∈ namesOf O ∧ n ∉ namesOf N := by
  constructor
  · intro hmem
    obtain ⟨g, hg, rfl⟩ := List.mem_map.mp hmem
    obtain ⟨hgO, hp⟩ := List.mem_filter.mp hg
    refine ⟨List.mem_map_of_mem _ hgO, ?_⟩
    rw [mem_namesOf_iff]
    rintro ⟨gn, hgn⟩
    rw [hgn] at hp
    simp at hp
  · rintro ⟨hO, hN⟩
    obtain ⟨g, hgO, rfl⟩ := List.mem_map.mp hO
    refine List.mem_map_of_mem _ (List.mem_filter.mpr ⟨hgO, ?_⟩)
    rw [Option.isNone_iff_eq_none]
    cases hcase : lookupByName N g.indexName with
    | none => rfl
    | some gn => exact absurd ((mem_namesOf_iff N _).mpr ⟨gn, hcase⟩) hN

/-- Modifications are exactly the names present in both sets whose stored
items have different comparison keys (assuming duplicate-free names in the
new set, as the keyed sets guarantee). -/
theorem mem_namesOf_diffUpdates (O N : List GlobalSecondaryIndex) (n : String)
    (hN : (namesOf N).Nodup) :
    n ∈ namesOf (diffUpdates O N) ↔
      ∃ go gn, lookupByName O n = some go ∧ lookupByName N n = some gn ∧
        gsiHashValue go ≠ gsiHashValue gn := by
  constructor
  · intro hmem
    obtain ⟨g, hg, rfl⟩ := List.mem_map.mp hmem
    obtain ⟨hgN, hp⟩ := List.mem_filter.mp hg
    cases hcase : lookupByName O g.indexName with
    | none => rw [hcase] at hp; simp at hp
    | some go =>
      rw [hcase] at hp
      refine ⟨go, g, rfl, lookup_eq_of_mem N hN g hgN, ?_⟩
      simpa using hp
  · rintro ⟨go, gn, hgo, hgn, hne⟩
    have hgnN := List.mem_of_find?_eq_some hgn
    have hname : gn.indexName = n := by simpa using List.find?_some hgn
    subst hname
    refine List.mem_map_of_mem _ (List.mem_filter.mpr ⟨hgnN, ?_⟩)
    rw [hgo]
    simpa using hne

/-- Partition of names for arbitrary keyed sets with duplicate-free names:
the general statement behind the diff invariant. -/
theorem diff_partition_general (O N : List GlobalSecondaryIndex)
    (hN : (namesOf N).Nodup) (n : String) :
    (n ∈ namesOf (diffAdds O N) ↔ n ∈ namesOf N ∧ n ∉ namesOf O) ∧
    (n ∈ namesOf (diffDeletes O N) ↔ n ∈ namesOf O ∧ n ∉ namesOf N) ∧
    (n ∈ namesOf (diffUpdates O N) ↔
      ∃ go gn, lookupByName O n = some go ∧ lookupByName N n = some gn ∧
        gsiHashValue go ≠ gsiHashValue gn) ∧
    (∀ go gn, lookupByName O n = some go → lookupByName N n = some gn →
      gsiHashValue go = gsiHashValue gn →
      n ∉ namesOf (diffAdds O N) ∧ n ∉ namesOf (diffUpdates O N) ∧
        n ∉ namesOf (diffDeletes O N)) ∧
    ((n ∈ namesOf O ∨ n ∈ namesOf N) →
      (n ∈ namesOf (diffAdds O N) ∨ n ∈ namesOf (diffUpdates O N) ∨
       n ∈ namesOf (diffDeletes O N) ∨
       ∃ go gn, lookupByName O n = some go ∧ lookupByName N n = some gn ∧
         gsiHashValue go = gsiHashValue gn)) ∧
    ¬ (n ∈ namesOf (diffAdds O N) ∧ n ∈ namesOf (diffUpdates O N)) ∧
    ¬ (n ∈ namesOf (diffAdds O N) ∧ n ∈ namesOf (diffDeletes O N)) ∧
    ¬ (n ∈ namesOf (diffUpdates O N) ∧ n ∈ namesOf (diffDeletes O N)) := by
  refine ⟨mem_namesOf_diffAdds O N n, mem_namesOf_diffDeletes O N n,
    mem_namesOf_diffUpdates O N n hN, ?_, ?_, ?_, ?_, ?_⟩
  · intro go gn hgo hgn heq
    refine ⟨?_, ?_, ?_⟩
    · rw [mem_namesOf_diffAdds]
      rintro ⟨_, hnotO⟩
      exact hnotO ((mem_namesOf_iff _ _).mpr ⟨go, hgo⟩)
    · rw [mem_namesOf_diffUpdates O N n hN]
      rintro ⟨go', gn', hgo', hgn', hne⟩
      rw [hgo] at hgo'
      rw [hgn] at hgn'
      cases hgo'
      cases hgn'
      exact hne heq
    · rw [mem_namesOf_diffDeletes]
      rintro ⟨_, hnotN⟩
      exact hnotN ((mem_namesOf_iff _ _).mpr ⟨gn, hgn⟩)
  · intro hmem
    cases hcaseO : lookupByName O n with
    | none =>
      have hnotO : n ∉ namesOf O := by
        rw [mem_namesOf_iff]
        rintro ⟨g, hg⟩
        rw [hcaseO] at hg
        cases hg
      have hinN : n ∈ namesOf N := by
        rcases hmem with h | h
        · exact absurd h hnotO
        · exact h
      exact Or.inl ((mem_namesOf_diffAdds O N n).mpr ⟨hinN, hnotO⟩)
    | some go =>
      cases hcaseN : lookupByName N n with
      | none =>
        have hnotN : n ∉ namesOf N := by
          rw [mem_namesOf_iff]
          rintro ⟨g, hg⟩
          rw [hcaseN] at hg
          cases hg
        have hinO : n ∈ namesOf O := (mem_namesOf_iff _ _).mpr ⟨go, hcaseO⟩
        exact Or.inr (Or.inr (Or.inl
          ((mem_namesOf_diffDeletes O N n).mpr ⟨hinO, hnotN⟩)))
      | some gn =>
        by_cases hhv : gsiHashValue go = gsiHashValue gn
        · exact Or.inr (Or.inr (Or.inr ⟨go, gn, rfl, rfl, hhv⟩))
        · exact Or.inr (Or.inl
            ((mem_namesOf_diffUpdates O N n hN).mpr ⟨go, gn, hcaseO, hcaseN, hhv⟩))

  · rintro ⟨ha, hu⟩
    obtain ⟨-, hnotO⟩ := (mem_namesOf_diffAdds O N n).mp ha
    obtain ⟨go, -, hgo, -⟩ := (mem_namesOf_diffUpdates O N n hN).mp hu
    exact hnotO ((mem_namesOf_iff _ _).mpr ⟨go, hgo⟩)
  · rintro ⟨ha, hd⟩
    obtain ⟨-, hnotO⟩ := (mem_namesOf_diffAdds O N n).mp ha
    obtain ⟨hinO, -⟩ := (mem_namesOf_diffDeletes O N n).mp hd
    exact hnotO hinO
  · rintro ⟨hu, hd⟩
    obtain ⟨go, gn, -, hgn, -⟩ := (mem_namesOf_diffUpdates O N n hN).mp hu
    obtain ⟨-, hnotN⟩ := (mem_namesOf_diffDeletes O N n).mp hd
    exact hnotN ((mem_namesOf_iff _ _).mpr ⟨gn, hgn⟩)

/-- C3 counterexample: the index named "idx" is present in both collections
with DIFFERENT capacity values (11/2 versus 27/5), yet the diff classifies
it in none of the three parts: the comparison key truncates capacities to
integers (both truncate to 5), so the claim's characterization of
modifications as "names present in both with different capacity values"
fails at this input. -/
theorem diff_fractional_capacity_not_modified :
    fracOldIdx.indexName = fracNewIdx.indexName ∧
    fracOldIdx.readCapacity ≠ fracNewIdx.readCapacity ∧
    diffAdds (newGlobalSecondaryIndexHashSet (some [fracOldIdx]))
        (newGlobalSecondaryIndexHashSet (some [fracNewIdx])) = [] ∧
    diffUpdates (newGlobalSecondaryIndexHashSet (some [fracOldIdx]))
        (newGlobalSecondaryIndexHashSet (some [fracNewIdx])) = [] ∧
    diffDeletes (newGlobalSecondaryIndexHashSet (some [fracOldIdx]))
        (newGlobalSecondaryIndexHashSet (some [fracNewIdx])) = [] := by
  refine ⟨rfl, by decide, ?_, ?_, ?_⟩ <;> decide

/-- C3 (amended): over the keyed sets the code builds from the old and new
secondary-index collections, additions, modifications and removals
partition the union of index names with no name in more than one part:
additions are the names present only in the new set, removals those present
only in the old set, modifications those present in both whose comparison
key (the truncated-capacity `HashValue`) differs, and a name present in
both sets with identical comparison key appears in none of the three
parts. -/
theorem diff_partition (oldOpt newOpt : Option (List GlobalSecondaryIndex))
    (O N : List GlobalSecondaryIndex)
    (hO : O = newGlobalSecondaryIndexHashSet oldOpt)
    (hN : N = newGlobalSecondaryIndexHashSet newOpt) (n : String) :
    (n ∈ namesOf (diffAdds O N) ↔ n ∈ namesOf N ∧ n ∉ namesOf O) ∧
    (n ∈ namesOf (diffDeletes O N) ↔ n ∈ namesOf O ∧ n ∉ namesOf N) ∧
    (n ∈ namesOf (diffUpdates O N) ↔
      ∃ go gn, lookupByName O n = some go ∧ lookupByName N n = some gn ∧
        gsiHashValue go ≠ gsiHashValue gn) ∧
    (∀ go gn, lookupByName O n = some go → lookupByName N n = some gn →
      gsiHashValue go = gsiHashValue gn →
      n ∉ namesOf (diffAdds O N) ∧ n ∉ namesOf (diffUpdates O N) ∧
        n ∉ namesOf (diffDeletes O N)) ∧
    ((n ∈ namesOf O ∨ n ∈ namesOf N) →
      (n ∈ namesOf (diffAdds O N) ∨ n ∈ namesOf (diffUpdates O N) ∨
       n ∈ namesOf (diffDeletes O N) ∨
       ∃ go gn, lookupByName O n = some go ∧ lookupByName N n = some gn ∧
         gsiHashValue go = gsiHashValue gn)) ∧
    ¬ (n ∈ namesOf (diffAdds O N) ∧ n ∈ namesOf (diffUpdates O N)) ∧
    ¬ (n ∈ namesOf (diffAdds O N) ∧ n ∈ namesOf (diffDeletes O N)) ∧
    ¬ (n ∈ namesOf (diffUpdates O N) ∧ n ∈ namesOf (diffDeletes O N)) := by
  subst hO
  subst hN
  exact diff_partition_general _ _ (hashSet_names_nodup newOpt) n

/-- Witness for C3 on the fractional fixtures: "idx" is in the union of
names and is covered by the identical-comparison-key case, hence in no
part. -/
theorem diff_partition_witness :
    "idx" ∉ namesOf (diffUpdates (newGlobalSecondaryIndexHashSet (some [fracOldIdx]))
      (newGlobalSecondaryIndexHashSet (some [fracNewIdx]))) :=
  ((diff_partition (some [fracOldIdx]) (some [fracNewIdx]) _ _ rfl rfl "idx").2.2.2.1
    fracOldIdx fracNewIdx rfl rfl (by decide)).2.1

/-! ### Update-trace extraction lemmas (C2, C10) -/

theorem updatedIndexNames_append (a b : List UpdateCall) :
    updatedIndexNames (a ++ b) = updatedIndexNames a ++ updatedIndexNames b :=
  List.filterMap_append a b updatedIndexName?

theorem updatedIndexNames_flatMap_none (name : String)
    (f : GlobalSecondaryIndex → UpdateCall)
    (hf : ∀ g, updatedIndexName? (f g) = none) (l : List GlobalSecondaryIndex) :
    updatedIndexNames (l.flatMap (fun g => updateTableCalls name (f g))) = [] := by
  induction l with
  | nil => rfl
  | cons g t ih =>
    rw [List.flatMap_cons, updatedIndexNames_append, ih]
    simp only [updatedIndexNames, updateTableCalls, List.filterMap_cons, hf g,
      List.filterMap_nil, List.append_nil]
    rfl

theorem updatedIndexNames_flatMap_upd (name : String)
    (l : List GlobalSecondaryIndex) :
    updatedIndexNames (l.flatMap (fun g => updateTableCalls name
      (.updateIndexCapacity name g.indexName
        (ratTrunc g.readCapacity) (ratTrunc g.writeCapacity)))) = namesOf l := by
  induction l with
  | nil => rfl
  | cons g t ih =>
    rw [List.flatMap_cons, updatedIndexNames_append, ih]
    simp [updatedIndexNames, updateTableCalls, updatedIndexName?, namesOf]

/-- The update-index-capacity calls of an Update trace name exactly the
indexes in the modifications part of the diff (and none when the diff
reports no index change). -/
theorem updatedIndexNames_trace (name : String) (old new : Table)
    (rc wc gc : Bool) :
    updatedIndexNames (updateTrace name old new rc wc gc) =
      if gc then
        namesOf (diffUpdates
          (newGlobalSecondaryIndexHashSet old.globalSecondaryIndexes)
          (newGlobalSecondaryIndexHashSet new.globalSecondaryIndexes))
      else [] := by
  unfold updateTrace
  rw [updatedIndexNames_append]
  have h1 : updatedIndexNames
      (if rc || wc then
        updateTableCalls name (.updateThroughput name
          (ratTrunc new.readCapacity) (ratTrunc new.writeCapacity))
      else []) = [] := by
    split_ifs <;> rfl
  rw [h1, List.nil_append]
  split_ifs with h2
  · simp only []
    rw [updatedIndexNames_append, updatedIndexNames_append,
      updatedIndexNames_append,
      updatedIndexNames_flatMap_none name
        (fun g => UpdateCall.createIndex name (attrDefs new.attributes) (gsiCreateAction g))
        (fun g => rfl),
      updatedIndexNames_flatMap_none name
        (fun g => UpdateCall.deleteIndex name g.indexName)
        (fun g => rfl),
      updatedIndexNames_flatMap_upd]
    simp [updatedIndexNames, updatedIndexName?]
  · rfl

/-- C10: the diff compares secondary indexes by integer-truncated
capacities: an index name stored in both keyed sets whose old and new read
capacities truncate to the same integer, and likewise for write capacities,
is classified as unmodified (it is not in the modifications part) and no
update-index-capacity call for it appears in any Update trace over those
collections, even when the fractional parts differ. -/
theorem update_truncated_capacity_frame
    (oldOpt newOpt : Option (List GlobalSecondaryIndex)) (n : String)
    (go gn : GlobalSecondaryIndex)
    (hgo : lookupByName (newGlobalSecondaryIndexHashSet oldOpt) n = some go)
    (hgn : lookupByName (newGlobalSecondaryIndexHashSet newOpt) n = some gn)
    (hr : ratTrunc go.readCapacity = ratTrunc gn.readCapacity)
    (hw : ratTrunc go.writeCapacity = ratTrunc gn.writeCapacity) :
    n ∉ namesOf (diffUpdates (newGlobalSecondaryIndexHashSet oldOpt)
      (newGlobalSecondaryIndexHashSet newOpt)) ∧
    (∀ (tname : String) (old new : Table) (rc wc gc : Bool),
      old.globalSecondaryIndexes = oldOpt → new.globalSecondaryIndexes = newOpt →
      n ∉ updatedIndexNames (updateTrace tname old new rc wc gc)) := by
  have hhv : gsiHashValue go = gsiHashValue gn := by
    rw [gsiHashValue, gsiHashValue, hr, hw]
  have hnot : n ∉ namesOf (diffUpdates (newGlobalSecondaryIndexHashSet oldOpt)
      (newGlobalSecondaryIndexHashSet newOpt)) := by
    rw [mem_namesOf_diffUpdates _ _ _ (hashSet_names_nodup newOpt)]
    rintro ⟨go', gn', hgo', hgn', hne⟩
    rw [hgo] at hgo'
    rw [hgn] at hgn'
    cases hgo'
    cases hgn'
    exact hne hhv
  refine ⟨hnot, ?_⟩
  intro tname old new rc wc gc hold hnew
  rw [updatedIndexNames_trace, hold, hnew]
  split_ifs
  · exact hnot
  · exact List.not_mem_nil n

/-- Witness for C10 on the fractional fixtures (11/2 and 27/5 both truncate
to 5). -/
theorem update_truncated_capacity_frame_witness :
    "idx" ∉ namesOf (diffUpdates (newGlobalSecondaryIndexHashSet (some [fracOldIdx]))
      (newGlobalSecondaryIndexHashSet (some [fracNewIdx]))) :=
  (update_truncated_capacity_frame (some [fracOldIdx]) (some [fracNewIdx]) "idx"
    fracOldIdx fracNewIdx rfl rfl (by decide) (by decide)).1

theorem waitFollows_wait_cons (name : String) (l : List UpdateCall) :
    waitFollows name (UpdateCall.waitActive name :: l) = waitFollows name l := by
  cases l with
  | nil => rfl
  | cons c2 rest => simp [waitFollows, isMutating]

theorem waitFollows_block_cons (name : String) (c : UpdateCall)
    (l : List UpdateCall) :
    waitFollows name (c :: UpdateCall.waitActive name :: l) =
      waitFollows name l := by
  rw [show waitFollows name (c :: UpdateCall.waitActive name :: l) =
      ((!isMutating c || (UpdateCall.waitActive name == UpdateCall.waitActive name)) &&
        waitFollows name (UpdateCall.waitActive name :: l)) from rfl]
  simp [waitFollows_wait_cons]

theorem waitFollows_flatMap (name : String)
    (f : GlobalSecondaryIndex → UpdateCall) (l : List GlobalSecondaryIndex)
    (tail : List UpdateCall) (h : waitFollows name tail = true) :
    waitFollows name
      (l.flatMap (fun g => updateTableCalls name (f g)) ++ tail) = true := by
  induction l with
  | nil => simpa
  | cons g t ih =>
    rw [List.flatMap_cons, List.append_assoc]
    rw [show (updateTableCalls name (f g) ++
        (t.flatMap (fun g => updateTableCalls name (f g)) ++ tail)) =
        (f g :: UpdateCall.waitActive name ::
          (t.flatMap (fun g => updateTableCalls name (f g)) ++ tail)) from rfl]
    rw [waitFollows_block_cons]
    exact ih

theorem filter_isMutating_flatMap (name : String)
    (f : GlobalSecondaryIndex → UpdateCall)
    (hf : ∀ g, isMutating (f g) = true) (l : List GlobalSecondaryIndex) :
    (l.flatMap (fun g => updateTableCalls name (f g))).filter isMutating =
      l.map f := by
  induction l with
  | nil => rfl
  | cons g t ih =>
    rw [List.flatMap_cons, List.filter_append, ih,
      show updateTableCalls name (f g) = [f g, UpdateCall.waitActive name] from rfl,
      List.filter_cons, hf g]
    simp [List.filter, isMutating]

theorem waitFollows_updateTableCalls_append (name : String) (c : UpdateCall)
    (tail : List UpdateCall) (h : waitFollows name tail = true) :
    waitFollows name (updateTableCalls name c ++ tail) = true := by
  rw [show updateTableCalls name c ++ tail =
      c :: UpdateCall.waitActive name :: tail from rfl, waitFollows_block_cons]
  exact h

/-- C2: after a successful parse, the mutating UpdateTable requests of an
Update trace are, in order: the throughput update (when capacity changed),
then one create-index request per addition, then one capacity update per
modification, then one delete-index request per removal — and every
mutating request is immediately followed by a wait for the table to become
active before anything further is issued. -/
theorem update_sequencing (name : String) (old new : Table) (rc wc gc : Bool) :
    mutatingCalls (updateTrace name old new rc wc gc) =
      (if rc || wc then
        [UpdateCall.updateThroughput name
          (ratTrunc new.readCapacity) (ratTrunc new.writeCapacity)]
       else []) ++
      (if gc then
        ((diffAdds (newGlobalSecondaryIndexHashSet old.globalSecondaryIndexes)
            (newGlobalSecondaryIndexHashSet new.globalSecondaryIndexes)).map
          (fun g => UpdateCall.createIndex name (attrDefs new.attributes)
            (gsiCreateAction g))) ++
        ((diffUpdates (newGlobalSecondaryIndexHashSet old.globalSecondaryIndexes)
            (newGlobalSecondaryIndexHashSet new.globalSecondaryIndexes)).map
          (fun g => UpdateCall.updateIndexCapacity name g.indexName
            (ratTrunc g.readCapacity) (ratTrunc g.writeCapacity))) ++
        ((diffDeletes (newGlobalSecondaryIndexHashSet old.globalSecondaryIndexes)
            (newGlobalSecondaryIndexHashSet new.globalSecondaryIndexes)).map
          (fun g => UpdateCall.deleteIndex name g.indexName))
       else []) ∧
    waitFollows name (updateTrace name old new rc wc gc) = true := by
  constructor
  · unfold updateTrace
    simp only [mutatingCalls]
    split_ifs
    · rw [List.filter_append, List.filter_append, List.filter_append,
        List.filter_append,
        filter_isMutating_flatMap name
          (fun g => UpdateCall.createIndex name (attrDefs new.attributes)
            (gsiCreateAction g)) (fun g => rfl),
        filter_isMutating_flatMap name
          (fun g => UpdateCall.updateIndexCapacity name g.indexName
            (ratTrunc g.readCapacity) (ratTrunc g.writeCapacity)) (fun g => rfl),
        filter_isMutating_flatMap name
          (fun g => UpdateCall.deleteIndex name g.indexName) (fun g => rfl)]
      simp [updateTableCalls, List.filter, isMutating, List.append_assoc]
    · rw [List.filter_append]
      simp [updateTableCalls, List.filter, isMutating]
    · rw [List.filter_append, List.filter_append, List.filter_append,
        List.filter_append,
        filter_isMutating_flatMap name
          (fun g => UpdateCall.createIndex name (attrDefs new.attributes)
            (gsiCreateAction g)) (fun g => rfl),
        filter_isMutating_flatMap name
          (fun g => UpdateCall.updateIndexCapacity name g.indexName
            (ratTrunc g.readCapacity) (ratTrunc g.writeCapacity)) (fun g => rfl),
        filter_isMutating_flatMap name
          (fun g => UpdateCall.deleteIndex name g.indexName) (fun g => rfl)]
      simp [List.filter, isMutating, List.append_assoc]
    · rfl
  · unfold updateTrace
    split_ifs
    · apply waitFollows_updateTableCalls_append
      rw [List.append_assoc, List.append_assoc]
      apply waitFollows_flatMap
      apply waitFollows_flatMap
      apply waitFollows_flatMap
      rfl
    · exact waitFollows_updateTableCalls_append name _ [] rfl
    · rw [List.nil_append, List.append_assoc, List.append_assoc]
      apply waitFollows_flatMap
      apply waitFollows_flatMap
      apply waitFollows_flatMap
      rfl
    · rfl

end DynamoDBTable
